import Mathlib

/-!
Verification of the process-lifecycle core (proc.c) of the Weenix kernel:
process creation, parent/child tracking, exit/cleanup, blocking wait/reap,
PID allocation, reparenting, and mass-kill.  Definitions are shallow
embeddings of the corresponding C functions; theorems settle the frozen
claims about the natural-language specification.
-/

namespace Weenix

/-- Process states, from the source's PROC_RUNNING / PROC_DEAD enumeration. -/
inductive ProcState where
  | PROC_RUNNING
  | PROC_DEAD
deriving DecidableEq, Repr

/-- Identity of a shared open-file object (a `file_t` in the source). -/
abbrev FileId := Nat

/-- Identity of a vnode (a `vnode_t` in the source, used for `p_cwd`). -/
abbrev VnodeId := Nat

/-- PID of the statically allocated idle pseudo-process.  `config.h` is not in
the sources; the spec fixes PID 0 for the idle pseudo-process. -/
def PID_IDLE : Int := 0

/-- Error number for `do_waitpid`'s rejection of unsupported arguments.
`errno.h` is not in the sources; only positivity and distinctness from
`ECHILD` matter for the claims (the function returns `-ENOTSUP`). -/
def ENOTSUP : Int := 95

/-- Error number for `do_waitpid`'s no-such-child error.  `errno.h` is not in
the sources; only positivity and distinctness from `ENOTSUP` matter. -/
def ECHILD : Int := 10

/-! ## Reference counting on shared file objects and vnodes

`fref`, `fput`, `vref`, `vput` live in the filesystem layer, outside the
given sources.  Their reference-count effect is modelled from the spec. -/

/-- Modelled from the spec: `fref` on a file handle takes a new reference,
incrementing the shared file object's reference count ("for each occupied
file-descriptor slot in the caller, take a new reference (increment the
shared file's reference count)"). -/
def fref (ref : FileId → Int) (f : FileId) : FileId → Int :=
  fun g => if g = f then ref g + 1 else ref g

/-- Modelled from the spec: `fput(file_t **filep)` releases one reference to
the shared file object (decrements its reference count); the slot pointer it
is handed is cleared, so a second pass over the same table slot sees an empty
slot ("release every occupied resource-table slot ... each exactly once").
This function gives the reference-count effect; the slot clearing is in the
table-walking functions below. -/
def fput (ref : FileId → Int) (f : FileId) : FileId → Int :=
  fun g => if g = f then ref g - 1 else ref g

/-- Modelled from the spec: `vref` takes a new reference to a vnode
(the caller's working directory, on create). -/
def vref (ref : VnodeId → Int) (v : VnodeId) : VnodeId → Int :=
  fun g => if g = v then ref g + 1 else ref g

/-- Modelled from the spec: `vput(vnode_t **vp)` releases one reference to a
vnode and clears the handle it is given. -/
def vput (ref : VnodeId → Int) (v : VnodeId) : VnodeId → Int :=
  fun g => if g = v then ref g - 1 else ref g

/-! ## proc_create: the VFS clone loop (source lines 220-238)

In the source, `p_files` is an array of `file_t` pointers.  The child's table
is first zeroed with `memset`, so every child slot holds the NULL pointer.
The loop then does, for each occupied caller slot:

    fref(curproc->p_files[fd]);
    memcpy(proc->p_files[fd], curproc->p_files[fd], sizeof(file_t));

`memcpy` writes the file structure through the pointer stored in the child's
slot — which is NULL.  The pointer value held in the child's table is not
changed by this (it stays NULL), and the write through NULL itself is a
fault.  The embedding records the table as the pointers actually stored in
it, and a flag that is true when the faulting write was executed. -/

/-- The child-table clone loop of `proc_create`.  Input: file reference
counts and the caller's table; output: updated reference counts, the child's
table as actually produced (slot pointers), and whether the NULL write was
executed. -/
def cloneFiles : (FileId → Int) → List (Option FileId) →
    (FileId → Int) × List (Option FileId) × Bool
  | ref, [] => (ref, [], false)
  | ref, none :: rest =>
    let r := cloneFiles ref rest
    (r.1, none :: r.2.1, r.2.2)
  | ref, some f :: rest =>
    let r := cloneFiles (fref ref f) rest
    (r.1, none :: r.2.1, true)

/-- The cwd clone of `proc_create` (source lines 231-237): if the caller has
a working directory, take a reference and install the same vnode handle. -/
def cloneCwd (ref : VnodeId → Int) (pcwd : Option VnodeId) :
    (VnodeId → Int) × Option VnodeId :=
  match pcwd with
  | none => (ref, none)
  | some v => (vref ref v, some v)

/-- The fields of a process descriptor (`proc_t`) that the claims are about. -/
structure ProcRec where
  p_pid : Int
  p_state : ProcState
  p_status : Int
  p_files : List (Option FileId)
  p_cwd : Option VnodeId
  p_children : List Int
deriving Repr

/-- Descriptor initialization in `proc_create` (source lines 198-237): state
PROC_RUNNING, status 0, empty child set; the file table and cwd fields are
the output of the clone code above. -/
def proc_create_rec (pid : Int) (files : List (Option FileId))
    (cwd : Option VnodeId) : ProcRec :=
  { p_pid := pid
    p_state := .PROC_RUNNING
    p_status := 0
    p_files := files
    p_cwd := cwd
    p_children := [] }

/-! ## proc_cleanup (source lines 268-298) and proc_destroy (365-399) -/

/-- The release loop over a process's file table, as in `proc_cleanup`
(lines 274-278) and repeated in `proc_destroy` (lines 377-381): for each
occupied slot, `fput` the slot (dropping one reference and clearing the
slot). -/
def cleanupFiles : (FileId → Int) → List (Option FileId) →
    (FileId → Int) × List (Option FileId)
  | ref, [] => (ref, [])
  | ref, none :: rest =>
    let r := cleanupFiles ref rest
    (r.1, none :: r.2)
  | ref, some f :: rest =>
    let r := cleanupFiles (fput ref f) rest
    (r.1, none :: r.2)

/-- The cwd release of `proc_cleanup` (lines 279-282) and `proc_destroy`
(lines 382-385): if the cwd handle is set, `vput` it (dropping one reference
and clearing the handle). -/
def cleanupCwd (ref : VnodeId → Int) (cwd : Option VnodeId) :
    (VnodeId → Int) × Option VnodeId :=
  match cwd with
  | none => (ref, none)
  | some v => (vput ref v, none)

/-- The global state a cleanup acts on: the exiting process's descriptor, the
shared reference counts, the init process's child set, the per-child parent
links (by pid), and whether system shutdown was initiated
(`initproc_finish`). -/
structure CleanupState where
  self : ProcRec
  fileRef : FileId → Int
  vnodeRef : VnodeId → Int
  initChildren : List Int
  pproc : Int → Int
  shutdown : Bool

/-- First statements of `proc_cleanup` (source lines 270-271): set the state
to PROC_DEAD and record the exit status. -/
def cleanup_set_state (st : CleanupState) (status : Int) : CleanupState :=
  { st with self := { st.self with p_state := .PROC_DEAD, p_status := status } }

/-- VFS release section of `proc_cleanup` (source lines 273-283): `fput`
every occupied file slot, `vput` the working directory. -/
def cleanup_release (st : CleanupState) : CleanupState :=
  let f := cleanupFiles st.fileRef st.self.p_files
  let c := cleanupCwd st.vnodeRef st.self.p_cwd
  { st with
    fileRef := f.1
    vnodeRef := c.1
    self := { st.self with p_files := f.2, p_cwd := c.2 } }

/-- One iteration of the reparenting loop of `proc_cleanup` (source lines
291-296): remove the child from the exiting process's child list, append it
to the init process's child list, and point its parent link at init. -/
def reparentStep (initPid : Int) (acc : CleanupState) (c : Int) : CleanupState :=
  { acc with
    self := { acc.self with p_children := acc.self.p_children.erase c }
    initChildren := acc.initChildren ++ [c]
    pproc := fun q => if q = c then initPid else acc.pproc q }

/-- Final section of `proc_cleanup` (source lines 285-298): the init process
initiates shutdown via `initproc_finish`; any other process walks its child
list, moving every child under init. -/
def cleanup_reparent (initPid : Int) (st : CleanupState) : CleanupState :=
  if st.self.p_pid = initPid then { st with shutdown := true }
  else st.self.p_children.foldl (reparentStep initPid) st

/-- `proc_cleanup(status)` (source lines 268-298), in source order: set
state/status, release VFS resources, then shutdown-or-reparent. -/
def proc_cleanup (initPid status : Int) (st : CleanupState) : CleanupState :=
  cleanup_reparent initPid (cleanup_release (cleanup_set_state st status))

/-- The VFS section of `proc_destroy` (source lines 376-386): the same
release loop over the (by now already emptied) file table and cwd handle.
Registry removal, thread destruction and page-table teardown are outside the
claims' scope. -/
def proc_destroy_vfs (st : CleanupState) : CleanupState :=
  cleanup_release st

/-- The round trip of claim C7: `proc_create`'s clone of the caller's
resources, then the child's exit (`proc_cleanup`), then the parent's
wait/`proc_destroy`.  Returns the final file and vnode reference counts.
The child pid 5 and init pid 1 are arbitrary with child ≠ init. -/
def roundTrip (ref : FileId → Int) (vr : VnodeId → Int)
    (parentFiles : List (Option FileId)) (pcwd : Option VnodeId) :
    (FileId → Int) × (VnodeId → Int) :=
  let c := cloneFiles ref parentFiles
  let v := cloneCwd vr pcwd
  let st0 : CleanupState :=
    { self := proc_create_rec 5 c.2.1 v.2
      fileRef := c.1
      vnodeRef := v.1
      initChildren := []
      pproc := fun _ => 0
      shutdown := false }
  let st1 := proc_cleanup 1 0 st0
  let st2 := proc_destroy_vfs st1
  (st2.fileRef, st2.vnodeRef)

/-! ## The PID allocator `_proc_getid` (source lines 113-139)

The C function scans the registry's pid list starting at the rotating cursor
`next_pid`; on a collision it advances the candidate with wraparound
`pid + 1 == PROC_MAX_COUNT ? 1 : pid + 1`, failing with -1 when the
candidate comes back around to the cursor.  The `goto restart` loop is
embedded with explicit fuel; fuel `PROC_MAX_COUNT` is provably sufficient
(the loop advances through at most `PROC_MAX_COUNT - 1` candidates). -/

/-- The wraparound successor `pid + 1 == PROC_MAX_COUNT ? 1 : pid + 1`
(source lines 123 and 135).  `M` is `PROC_MAX_COUNT` (`config.h` is not in
the sources, so the bound is a parameter). -/
def wrapSucc (M pid : Int) : Int :=
  if pid + 1 = M then 1 else pid + 1

/-- The `restart` loop of `_proc_getid` (source lines 118-134): if some live
process has the candidate pid, advance (returning -1 when the candidate
wraps back to the cursor `next`), otherwise return the candidate. -/
def getidLoop (M : Int) (pids : List Int) (next : Int) : Int → Nat → Int
  | _, 0 => -1
  | pid, fuel + 1 =>
    if pid ∈ pids then
      if wrapSucc M pid = next then -1
      else getidLoop M pids next (wrapSucc M pid) fuel
    else pid

/-- `_proc_getid()` (source lines 114-139): start the scan at the cursor
`next_pid`; `pids` are the pids of the processes on `proc_list`.  The fuel
`M.toNat` is enough for the loop to run to its own termination. -/
def _proc_getid (M : Int) (pids : List Int) (next : Int) : Int :=
  getidLoop M pids next next M.toNat

/-- Iterated wraparound successor (used to reason about the allocator's
candidate sequence). -/
def sIter (M : Int) : Nat → Int → Int
  | 0, pid => pid
  | n + 1, pid => sIter M n (wrapSucc M pid)

/-- The list of the first `n` candidates the allocator scan visits, starting
at `pid`. -/
def candChain (M : Int) : Nat → Int → List Int
  | 0, _ => []
  | n + 1, pid => pid :: candChain M n (wrapSucc M pid)

/-- First candidate not occupied by a live pid, or -1 when all candidates
are occupied: the allocator loop seen as a scan of its candidate list. -/
def scanFree (pids : List Int) : List Int → Int
  | [] => -1
  | c :: cs => if c ∈ pids then scanFree pids cs else c

/-! ## do_waitpid (source lines 428-471)

The wait loops block on the caller's `p_wait` queue; each wakeup corresponds
to a broadcast by some exiting child (`proc_thread_exiting`, line 318).  The
environment is embedded as the list of exit events that cause the successive
wakeups: the waiter consumes one event per sleep, re-checking its predicate
after each, exactly as the `while`/`goto iterate` loops re-check theirs. -/

/-- A child descriptor as seen by `do_waitpid`: pid, state, exit status. -/
structure WProc where
  pid : Int
  state : ProcState
  status : Int
deriving DecidableEq, Repr

/-- An exit of child `pid` with exit status `status`, broadcast on the
waiting parent's queue. -/
structure WEvent where
  pid : Int
  status : Int
deriving DecidableEq, Repr

/-- Effect of an exit event on one child descriptor: the exiting child
becomes PROC_DEAD carrying its exit status (`proc_cleanup`, source lines
270-271); other descriptors are untouched. -/
def exitUpd (e : WEvent) (c : WProc) : WProc :=
  if c.pid = e.pid then { c with state := .PROC_DEAD, status := e.status } else c

/-- Effect of an exit event on the parent's child list: no child is added or
removed. -/
def applyEvent (ch : List WProc) (e : WEvent) : List WProc :=
  ch.map (exitUpd e)

/-- Fold of `applyEvent` over a list of exit events. -/
def applyEvents (ch : List WProc) (es : List WEvent) : List WProc :=
  es.foldl applyEvent ch

/-- Outcome of a `do_waitpid` call.  Every constructor carries the caller's
child list as left by the call, so non-mutation on error paths is a provable
statement.  `fault` is the dereference of a NULL `status` pointer. -/
inductive WaitRes where
  | ok (retpid written destroyedPid : Int) (children : List WProc)
  | error (code : Int) (children : List WProc)
  | blocked (children : List WProc)
  | fault (children : List WProc)
deriving DecidableEq, Repr

/-- The success path of `do_waitpid` on a dead child `c` (source lines
445-448 and 462-466, in source order): `*status = child->p_status` — a NULL
dereference if the status pointer is NULL, in which case the removal and
destruction below it are never reached — then `list_remove`, `proc_destroy`,
and return of the child's pid. -/
def reapChild (ch : List WProc) (c : WProc) (statusValid : Bool) : WaitRes :=
  if statusValid then
    .ok c.pid c.status c.pid (ch.eraseP fun x => x.pid == c.pid)
  else .fault ch

/-- The specific-pid wait loop (source lines 437-450): locate the child with
the given pid, then `while (child->p_state != PROC_DEAD) sched_sleep_on(...)`,
re-checking that child's state — and only that child's — after every wakeup.
The source holds a pointer to the child's node; re-finding by pid after each
event returns the same node, since events preserve pids and order. -/
def waitSpecific (pid : Int) (statusValid : Bool) :
    List WEvent → List WProc → WaitRes
  | [], ch =>
    match ch.find? (fun c => c.pid == pid) with
    | none => .error ECHILD ch
    | some c =>
      if c.state = .PROC_DEAD then reapChild ch c statusValid else .blocked ch
  | e :: rest, ch =>
    match ch.find? (fun c => c.pid == pid) with
    | none => .error ECHILD ch
    | some c =>
      if c.state = .PROC_DEAD then reapChild ch c statusValid
      else waitSpecific pid statusValid rest (applyEvent ch e)

/-- The any-child wait loop (`iterate:` label, source lines 457-470): scan
the child list for some dead child; if none, sleep and rescan after the next
wakeup. -/
def waitAny (statusValid : Bool) : List WEvent → List WProc → WaitRes
  | [], ch =>
    match ch.find? (fun c => decide (c.state = ProcState.PROC_DEAD)) with
    | some c => reapChild ch c statusValid
    | none => .blocked ch
  | e :: rest, ch =>
    match ch.find? (fun c => decide (c.state = ProcState.PROC_DEAD)) with
    | some c => reapChild ch c statusValid
    | none => waitAny statusValid rest (applyEvent ch e)

/-- `do_waitpid(pid, status, options)` (source lines 428-471).  `ch` is
`curproc->p_children`, `es` the schedule of child-exit wakeups,
`statusValid` whether the `status` pointer is non-NULL. -/
def do_waitpid (ch : List WProc) (es : List WEvent) (pid : Int)
    (statusValid : Bool) (options : Int) : WaitRes :=
  if pid = 0 ∨ pid < -1 ∨ options ≠ 0 then .error ENOTSUP ch
  else if 0 < pid then
    match ch.find? (fun c => c.pid == pid) with
    | none => .error ECHILD ch
    | some _ => waitSpecific pid statusValid es ch
  else if ch = [] then .error ECHILD ch
  else waitAny statusValid es ch

/-! ## proc_kill and proc_kill_all (source lines 328-355) -/

/-- A registered process as seen by `proc_kill_all`: its pid and the thread
identities on its `p_threads` list. -/
structure KProc where
  pid : Int
  threads : List Nat
deriving DecidableEq, Repr

/-- `proc_kill(proc, status)` (source lines 328-334): deliver a cancellation
request carrying `status` to every thread of `proc`, via `kthread_cancel`.
The result is the list of (thread, payload) cancellations delivered. -/
def proc_kill (p : KProc) (status : Int) : List (Nat × Int) :=
  p.threads.map fun t => (t, status)

/-- One registry-iteration step of `proc_kill_all` (source lines 347-353):
cancel the process unless it is the caller, the idle process, or init. -/
def killAllStep (curPid initPid : Int) (acc : List (Nat × Int)) (p : KProc) :
    List (Nat × Int) :=
  if p.pid ≠ curPid ∧ p.pid ≠ PID_IDLE ∧ p.pid ≠ initPid then
    acc ++ proc_kill p (-1)
  else acc

/-- `proc_kill_all()` (source lines 345-355): walk the registry, cancelling
every process other than the caller, idle, and init with status -1; then
`do_exit(-1)` — the caller itself exits with status -1 (second component). -/
def proc_kill_all (registry : List KProc) (curPid initPid : Int) :
    List (Nat × Int) × Int :=
  (registry.foldl (killAllStep curPid initPid) [], -1)

/-! ## Helper lemmas: the reparenting fold -/

theorem reparent_foldl_initChildren (i : Int) (l : List Int) :
    ∀ acc : CleanupState,
      (l.foldl (reparentStep i) acc).initChildren = acc.initChildren ++ l := by
  induction l with
  | nil => intro acc; simp
  | cons c l ih =>
    intro acc
    simp [List.foldl_cons, ih, reparentStep]

theorem reparent_foldl_pproc (i : Int) (l : List Int) :
    ∀ (acc : CleanupState) (q : Int),
      (l.foldl (reparentStep i) acc).pproc q =
        if q ∈ l then i else acc.pproc q := by
  induction l with
  | nil => intro acc q; simp
  | cons c l ih =>
    intro acc q
    rw [List.foldl_cons, ih]
    by_cases hql : q ∈ l
    · simp [hql]
    · by_cases hqc : q = c <;> simp [hql, hqc, reparentStep]

theorem reparent_foldl_children (i : Int) (l : List Int) :
    ∀ acc : CleanupState,
      acc.self.p_children = l →
      (l.foldl (reparentStep i) acc).self.p_children = [] := by
  induction l with
  | nil => intro acc h; simpa using h
  | cons c l ih =>
    intro acc h
    rw [List.foldl_cons]
    apply ih
    simp [reparentStep, h]

theorem reparent_foldl_p_state (i : Int) (l : List Int) :
    ∀ acc : CleanupState,
      (l.foldl (reparentStep i) acc).self.p_state = acc.self.p_state := by
  induction l with
  | nil => intro acc; simp
  | cons c l ih => intro acc; rw [List.foldl_cons, ih]; rfl

/-! ## Claim theorems: creation and cleanup -/

/-- C1 (code bug): evaluation of `proc_create`'s VFS clone loop at a caller
whose file-descriptor slot 0 holds file 0 with reference count 1.  The
shared file's reference count is incremented to 2 by `fref`, but the new
process's table slot stays empty — the `memcpy` destination is the NULL
pointer that `memset` left in the child's slot, so the handle is never
installed and the write faults (third conjunct) — refuting "the new
process's table holds the same file handle in the same slot".  (Slots empty
in the caller do stay empty, as the first conjunct's `none` shows.) -/
theorem proc_create_clone_null_slot :
    (cloneFiles (fun _ => 1) [some 0]).2.1 = [none] ∧
    (cloneFiles (fun _ => 1) [some 0]).1 0 = 2 ∧
    (cloneFiles (fun _ => 1) [some 0]).2.2 = true := by
  refine ⟨rfl, by decide, rfl⟩

/-- C7 (code bug): the create / child-exit / parent-wait round trip at a
caller holding file 0 (count 1) in slot 0 and working directory vnode 0
(count 1).  The working-directory count does return to 1 (second conjunct):
it is released exactly once, in `proc_cleanup`, and `proc_destroy`'s repeat
release loop sees the cleared handle.  But the file's count ends at 2, not
its pre-create value 1: `proc_create` took a reference with `fref` yet never
installed the handle in the child's table (claim C1's bug), so neither
`proc_cleanup` nor `proc_destroy` finds an occupied slot to release. -/
theorem roundTrip_file_ref_leak :
    (roundTrip (fun _ => 1) (fun _ => 1) [some 0] (some 0)).1 0 = 2 ∧
    (roundTrip (fun _ => 1) (fun _ => 1) [some 0] (some 0)).2 0 = 1 := by
  constructor <;> decide

/-- A concrete running process with an occupied file slot, a working
directory, and one child: input for claim C4's counterexample. -/
def c4state : CleanupState :=
  { self :=
      { p_pid := 5
        p_state := .PROC_RUNNING
        p_status := 0
        p_files := [some 0]
        p_cwd := some 0
        p_children := [7] }
    fileRef := fun _ => 1
    vnodeRef := fun _ => 1
    initChildren := []
    pproc := fun _ => 5
    shutdown := false }

/-- C4 counterexample: at the concrete process `c4state`, the first stage of
`proc_cleanup` (source lines 270-271) already produces state PROC_DEAD while
the file-table slot is still occupied, the working directory still held, and
child 7 not yet reparented to init — so the RUNNING→DEAD transition happens
before resource release and reparenting, refuting the claim that it is
performed "as the terminal act of cleanup (after resource release and
reparenting have completed)".  The last conjunct records that `proc_cleanup`
is exactly this state-setting stage followed by release and reparenting. -/
theorem cleanup_dead_before_release_cex :
    (cleanup_set_state c4state 3).self.p_state = ProcState.PROC_DEAD ∧
    (cleanup_set_state c4state 3).self.p_files = [some 0] ∧
    (cleanup_set_state c4state 3).self.p_cwd = some 0 ∧
    (cleanup_set_state c4state 3).self.p_children = [7] ∧
    (cleanup_set_state c4state 3).initChildren = [] ∧
    proc_cleanup 1 3 c4state =
      cleanup_reparent 1 (cleanup_release (cleanup_set_state c4state 3)) :=
  ⟨rfl, rfl, rfl, rfl, rfl, rfl⟩

/-- C4 (amended): a process's state is PROC_RUNNING at creation and
transitions to PROC_DEAD exactly once, performed by the process's own
exiting thread as the first act of `proc_cleanup` — before resource release
and reparenting, which preserve the state — and never transitions back to
PROC_RUNNING: cleanup always leaves the process DEAD, and the only other
state-affecting operation in the model, an exit event on a child list, never
produces PROC_RUNNING from a dead descriptor (a descriptor running after an
event was already running before it). -/
theorem proc_state_lifecycle :
    (∀ pid files cwd,
        (proc_create_rec pid files cwd).p_state = ProcState.PROC_RUNNING) ∧
    (∀ st status,
        (cleanup_set_state st status).self.p_state = ProcState.PROC_DEAD) ∧
    (∀ st, (cleanup_release st).self.p_state = st.self.p_state) ∧
    (∀ i st, (cleanup_reparent i st).self.p_state = st.self.p_state) ∧
    (∀ i s st, (proc_cleanup i s st).self.p_state = ProcState.PROC_DEAD) ∧
    (∀ ch e c, c ∈ applyEvent ch e → c.state = ProcState.PROC_RUNNING →
        ∃ c0, c0 ∈ ch ∧ c0.state = ProcState.PROC_RUNNING ∧ c0.pid = c.pid) := by
  refine ⟨fun _ _ _ => rfl, fun _ _ => rfl, fun _ => rfl, ?_, ?_, ?_⟩
  · intro i st
    unfold cleanup_reparent
    split
    · rfl
    · exact reparent_foldl_p_state i st.self.p_children st
  · intro i s st
    unfold proc_cleanup cleanup_reparent
    split
    · rfl
    · rw [reparent_foldl_p_state]; rfl
  · intro ch e c hc hrun
    rcases List.mem_map.mp hc with ⟨c0, hc0, hupd⟩
    refine ⟨c0, hc0, ?_, ?_⟩
    · unfold exitUpd at hupd
      by_cases h : c0.pid = e.pid
      · rw [if_pos h] at hupd
        rw [← hupd] at hrun
        cases hrun
      · rwa [if_neg h, hupd] at *
    · unfold exitUpd at hupd
      by_cases h : c0.pid = e.pid
      · rw [if_pos h] at hupd; rw [← hupd]
      · rw [if_neg h] at hupd; rw [hupd]

/-- Witness for the amended C4 theorem: its last conjunct applied at a
concrete child list and event. -/
theorem proc_state_lifecycle_witness :
    ∃ c0, c0 ∈ [WProc.mk 2 ProcState.PROC_RUNNING 0] ∧
      c0.state = ProcState.PROC_RUNNING ∧ c0.pid = 2 :=
  proc_state_lifecycle.2.2.2.2.2
    [WProc.mk 2 ProcState.PROC_RUNNING 0] (WEvent.mk 3 9)
    (WProc.mk 2 ProcState.PROC_RUNNING 0) (by decide) rfl

/-- C5: after `proc_cleanup` of an exiting non-init process, every process
that was in its child set is in the init process's child set with its parent
link pointing at init, and the exiting process's own child set is empty. -/
theorem proc_cleanup_reparents (initPid status : Int) (st : CleanupState)
    (h : st.self.p_pid ≠ initPid) :
    (∀ c ∈ st.self.p_children,
        c ∈ (proc_cleanup initPid status st).initChildren ∧
        (proc_cleanup initPid status st).pproc c = initPid) ∧
    (proc_cleanup initPid status st).self.p_children = [] := by
  have hpid : (cleanup_release (cleanup_set_state st status)).self.p_pid =
      st.self.p_pid := rfl
  have hch : (cleanup_release (cleanup_set_state st status)).self.p_children =
      st.self.p_children := rfl
  unfold proc_cleanup cleanup_reparent
  rw [hpid, if_neg h, hch]
  constructor
  · intro c hc
    constructor
    · rw [reparent_foldl_initChildren]
      exact List.mem_append.mpr (Or.inr hc)
    · rw [reparent_foldl_pproc, if_pos hc]
  · exact reparent_foldl_children initPid _ _ hch

/-- A concrete exiting process with two children, input for C5's witness. -/
def c5state : CleanupState :=
  { self :=
      { p_pid := 5
        p_state := .PROC_RUNNING
        p_status := 0
        p_files := []
        p_cwd := none
        p_children := [7, 8] }
    fileRef := fun _ => 1
    vnodeRef := fun _ => 1
    initChildren := []
    pproc := fun _ => 5
    shutdown := false }

/-- Witness for C5 at the concrete state `c5state` with init pid 1. -/
theorem proc_cleanup_reparents_witness :
    (∀ c ∈ c5state.self.p_children,
        c ∈ (proc_cleanup 1 0 c5state).initChildren ∧
        (proc_cleanup 1 0 c5state).pproc c = 1) ∧
    (proc_cleanup 1 0 c5state).self.p_children = [] :=
  proc_cleanup_reparents 1 0 c5state (by decide)

/-! ## Claim theorems: kill_all -/

theorem killAll_foldl_mono (cur i : Int) (l : List KProc) :
    ∀ (acc : List (Nat × Int)) (x : Nat × Int),
      x ∈ acc → x ∈ l.foldl (killAllStep cur i) acc := by
  induction l with
  | nil => intro acc x hx; simpa using hx
  | cons q l ih =>
    intro acc x hx
    rw [List.foldl_cons]
    apply ih
    unfold killAllStep
    split
    · exact List.mem_append.mpr (Or.inl hx)
    · exact hx

theorem killAll_foldl_covers (cur i : Int) (l : List KProc) :
    ∀ (acc : List (Nat × Int)) (p : KProc),
      p ∈ l → p.pid ≠ cur → p.pid ≠ PID_IDLE → p.pid ≠ i →
      ∀ t ∈ p.threads, (t, -1) ∈ l.foldl (killAllStep cur i) acc := by
  induction l with
  | nil => intro acc p hp; cases hp
  | cons q l ih =>
    intro acc p hp h1 h2 h3 t ht
    rw [List.foldl_cons]
    rcases List.mem_cons.mp hp with heq | hmem
    · subst heq
      apply killAll_foldl_mono
      unfold killAllStep
      rw [if_pos ⟨h1, h2, h3⟩]
      refine List.mem_append.mpr (Or.inr ?_)
      exact List.mem_map.mpr ⟨t, ht, rfl⟩
    · exact ih _ p hmem h1 h2 h3 t ht

theorem killAll_foldl_sound (cur i : Int) (l : List KProc) :
    ∀ (acc : List (Nat × Int)) (x : Nat × Int),
      x ∈ l.foldl (killAllStep cur i) acc →
      x ∈ acc ∨ ∃ p, p ∈ l ∧ p.pid ≠ cur ∧ p.pid ≠ PID_IDLE ∧ p.pid ≠ i ∧
        x.1 ∈ p.threads ∧ x.2 = -1 := by
  induction l with
  | nil => intro acc x hx; exact Or.inl (by simpa using hx)
  | cons q l ih =>
    intro acc x hx
    rw [List.foldl_cons] at hx
    rcases ih _ x hx with hacc | ⟨p, hp, h1, h2, h3, ht, hs⟩
    · unfold killAllStep at hacc
      split at hacc
      · rcases List.mem_append.mp hacc with h | h
        · exact Or.inl h
        · rcases List.mem_map.mp h with ⟨t, ht, hxt⟩
          rename_i hcond
          exact Or.inr ⟨q, List.mem_cons_self q l, hcond.1, hcond.2.1, hcond.2.2,
            by rw [← hxt]; exact ht, by rw [← hxt]⟩
      · exact Or.inl hacc
    · exact Or.inr ⟨p, List.mem_cons_of_mem q hp, h1, h2, h3, ht, hs⟩

/-- C6: `proc_kill_all` delivers a cancellation carrying status -1 to every
thread of every registered process that is neither the caller, nor idle
(PID 0), nor init (first conjunct); every cancellation it delivers targets a
thread of such a process and carries -1 — in particular no thread of the
caller, of idle, or of init is cancelled (second conjunct); and the caller
itself then exits with status -1 (third conjunct). -/
theorem proc_kill_all_spec (registry : List KProc) (curPid initPid : Int) :
    (∀ p ∈ registry, p.pid ≠ curPid → p.pid ≠ PID_IDLE → p.pid ≠ initPid →
        ∀ t ∈ p.threads, (t, -1) ∈ (proc_kill_all registry curPid initPid).1) ∧
    (∀ x ∈ (proc_kill_all registry curPid initPid).1,
        ∃ p, p ∈ registry ∧ p.pid ≠ curPid ∧ p.pid ≠ PID_IDLE ∧
          p.pid ≠ initPid ∧ x.1 ∈ p.threads ∧ x.2 = -1) ∧
    (proc_kill_all registry curPid initPid).2 = -1 := by
  refine ⟨?_, ?_, rfl⟩
  · intro p hp h1 h2 h3 t ht
    exact killAll_foldl_covers curPid initPid registry [] p hp h1 h2 h3 t ht
  · intro x hx
    rcases killAll_foldl_sound curPid initPid registry [] x hx with h | h
    · cases h
    · exact h

/-- Witness for C6: in a registry holding idle (pid 0, thread 10), init
(pid 1, thread 11), an ordinary process (pid 2, thread 12) and the caller
(pid 5, thread 14), the call by pid 5 cancels thread 12 with -1. -/
theorem proc_kill_all_spec_witness :
    (12, -1) ∈ (proc_kill_all
      [KProc.mk 0 [10], KProc.mk 1 [11], KProc.mk 2 [12], KProc.mk 5 [14]]
      5 1).1 :=
  (proc_kill_all_spec
      [KProc.mk 0 [10], KProc.mk 1 [11], KProc.mk 2 [12], KProc.mk 5 [14]]
      5 1).1
    (KProc.mk 2 [12]) (by decide) (by decide) (by decide) (by decide)
    12 (by decide)

/-! ## Claim theorems: do_waitpid argument rejection -/

/-- C8: `do_waitpid` with pid 0, a negative pid other than -1, or non-zero
options returns -ENOTSUP at once — for every wakeup schedule, including the
empty one, so no blocking occurs — and leaves the caller's child list
untouched (the error result carries the input list unchanged). -/
theorem do_waitpid_rejects_unsupported (ch : List WProc) (es : List WEvent)
    (pid : Int) (statusValid : Bool) (options : Int)
    (h : pid = 0 ∨ pid < -1 ∨ options ≠ 0) :
    do_waitpid ch es pid statusValid options = WaitRes.error ENOTSUP ch := by
  unfold do_waitpid
  rw [if_pos h]

/-- Witness for C8 at pid 0 with a non-empty wakeup schedule. -/
theorem do_waitpid_rejects_unsupported_witness :
    do_waitpid [WProc.mk 3 ProcState.PROC_RUNNING 0] [WEvent.mk 3 9] 0 true 0 =
      WaitRes.error ENOTSUP [WProc.mk 3 ProcState.PROC_RUNNING 0] :=
  do_waitpid_rejects_unsupported _ _ 0 true 0 (Or.inl rfl)

/-! ## Helper lemmas: the wait loops -/

theorem exitUpd_pid (e : WEvent) (c : WProc) : (exitUpd e c).pid = c.pid := by
  unfold exitUpd; split <;> rfl

theorem find?_applyEvent (ch : List WProc) (e : WEvent) (p : Int) :
    (applyEvent ch e).find? (fun c => c.pid == p) =
      (ch.find? (fun c => c.pid == p)).map (exitUpd e) := by
  have hcomp : ((fun c : WProc => c.pid == p) ∘ exitUpd e) =
      fun c : WProc => c.pid == p := by
    funext c; simp [Function.comp, exitUpd_pid]
  unfold applyEvent
  rw [List.find?_map, hcomp]

theorem reapChild_ne_error (ch : List WProc) (c : WProc) (sv : Bool)
    (e : Int) (ch' : List WProc) : reapChild ch c sv ≠ WaitRes.error e ch' := by
  unfold reapChild; split <;> simp

theorem reapChild_false_eq_fault (ch : List WProc) (c : WProc) :
    reapChild ch c false = WaitRes.fault ch := rfl

theorem waitSpecific_dead (p : Int) (sv : Bool) (es : List WEvent)
    (ch : List WProc) (c : WProc)
    (hf : ch.find? (fun x => x.pid == p) = some c)
    (hd : c.state = ProcState.PROC_DEAD) :
    waitSpecific p sv es ch = reapChild ch c sv := by
  cases es <;> simp [waitSpecific, hf, hd]

theorem waitSpecific_runs (p s : Int) (pre : List WEvent) :
    ∀ (post : List WEvent) (ch : List WProc) (c0 : WProc),
      ch.find? (fun c => c.pid == p) = some c0 →
      c0.state = ProcState.PROC_RUNNING →
      (∀ e ∈ pre, e.pid ≠ p) →
      waitSpecific p true (pre ++ WEvent.mk p s :: post) ch =
        WaitRes.ok p s p
          ((applyEvents ch (pre ++ [WEvent.mk p s])).eraseP
            fun x => x.pid == p) := by
  induction pre with
  | nil =>
    intro post ch c0 hf hrun _
    have hnd : ¬c0.state = ProcState.PROC_DEAD := by
      rw [hrun]; intro hh; cases hh
    have hpid : c0.pid = p := by
      have := List.find?_some hf
      simpa using this
    simp only [List.nil_append, waitSpecific, hf]
    rw [if_neg hnd]
    have hf2 : (applyEvent ch (WEvent.mk p s)).find? (fun c => c.pid == p) =
        some (exitUpd (WEvent.mk p s) c0) := by
      rw [find?_applyEvent, hf]; rfl
    have hupd : exitUpd (WEvent.mk p s) c0 =
        { c0 with state := .PROC_DEAD, status := s } := by
      unfold exitUpd
      rw [if_pos hpid]
    rw [waitSpecific_dead p true post _ _ hf2 (by rw [hupd])]
    simp [reapChild, hupd, hpid, applyEvents]
  | cons e pre ih =>
    intro post ch c0 hf hrun hpre
    have hep : e.pid ≠ p := hpre e (List.mem_cons_self e pre)
    have hnd : ¬c0.state = ProcState.PROC_DEAD := by
      rw [hrun]; intro hh; cases hh
    have hpid : c0.pid = p := by
      have := List.find?_some hf
      simpa using this
    simp only [List.cons_append, waitSpecific, hf]
    rw [if_neg hnd]
    have hupd : exitUpd e c0 = c0 := by
      unfold exitUpd
      rw [if_neg (by rw [hpid]; exact fun hh => hep hh.symm)]
    have hf2 : (applyEvent ch e).find? (fun c => c.pid == p) = some c0 := by
      rw [find?_applyEvent, hf]
      simp [hupd]
    exact ih post (applyEvent ch e) c0 hf2 hrun
      (fun e' he' => hpre e' (List.mem_cons_of_mem e he'))

theorem waitSpecific_no_error (p : Int) (sv : Bool) (es : List WEvent) :
    ∀ (ch : List WProc) (c0 : WProc),
      ch.find? (fun c => c.pid == p) = some c0 →
      ∀ (e : Int) (ch' : List WProc),
        waitSpecific p sv es ch ≠ WaitRes.error e ch' := by
  induction es with
  | nil =>
    intro ch c0 hf e ch'
    simp only [waitSpecific, hf]
    split
    · exact reapChild_ne_error ch c0 sv e ch'
    · simp
  | cons ev es ih =>
    intro ch c0 hf e ch'
    simp only [waitSpecific, hf]
    split
    · exact reapChild_ne_error ch c0 sv e ch'
    · refine ih (applyEvent ch ev) (exitUpd ev c0) ?_ e ch'
      rw [find?_applyEvent, hf]; rfl

theorem waitAny_no_error (sv : Bool) (es : List WEvent) :
    ∀ (ch : List WProc) (e : Int) (ch' : List WProc),
      waitAny sv es ch ≠ WaitRes.error e ch' := by
  induction es with
  | nil =>
    intro ch e ch'
    cases hfd : ch.find? (fun c => decide (c.state = ProcState.PROC_DEAD)) with
    | none => simp [waitAny, hfd]
    | some c =>
      simp only [waitAny, hfd]
      exact reapChild_ne_error ch c sv e ch'
  | cons ev es ih =>
    intro ch e ch'
    cases hfd : ch.find? (fun c => decide (c.state = ProcState.PROC_DEAD)) with
    | none =>
      simp only [waitAny, hfd]
      exact ih (applyEvent ch ev) e ch'
    | some c =>
      simp only [waitAny, hfd]
      exact reapChild_ne_error ch c sv e ch'

theorem waitSpecific_false_no_ok (p : Int) (es : List WEvent) :
    ∀ (ch : List WProc) (a w d : Int) (ch' : List WProc),
      waitSpecific p false es ch ≠ WaitRes.ok a w d ch' := by
  induction es with
  | nil =>
    intro ch a w d ch'
    cases hf : ch.find? (fun c => c.pid == p) with
    | none => simp [waitSpecific, hf]
    | some c =>
      simp only [waitSpecific, hf]
      split
      · rw [reapChild_false_eq_fault]; simp
      · simp
  | cons ev es ih =>
    intro ch a w d ch'
    cases hf : ch.find? (fun c => c.pid == p) with
    | none => simp [waitSpecific, hf]
    | some c =>
      simp only [waitSpecific, hf]
      split
      · rw [reapChild_false_eq_fault]; simp
      · exact ih (applyEvent ch ev) a w d ch'

theorem waitAny_false_no_ok (es : List WEvent) :
    ∀ (ch : List WProc) (a w d : Int) (ch' : List WProc),
      waitAny false es ch ≠ WaitRes.ok a w d ch' := by
  induction es with
  | nil =>
    intro ch a w d ch'
    cases hfd : ch.find? (fun c => decide (c.state = ProcState.PROC_DEAD)) with
    | none => simp [waitAny, hfd]
    | some c =>
      simp only [waitAny, hfd]
      rw [reapChild_false_eq_fault]; simp
  | cons ev es ih =>
    intro ch a w d ch'
    cases hfd : ch.find? (fun c => decide (c.state = ProcState.PROC_DEAD)) with
    | none =>
      simp only [waitAny, hfd]
      exact ih (applyEvent ch ev) a w d ch'
    | some c =>
      simp only [waitAny, hfd]
      rw [reapChild_false_eq_fault]; simp

theorem waitSpecific_ok_fault (p : Int) (es : List WEvent) :
    ∀ (ch : List WProc) (a w d : Int) (ch' : List WProc),
      waitSpecific p true es ch = WaitRes.ok a w d ch' →
      ∃ chf, waitSpecific p false es ch = WaitRes.fault chf := by
  induction es with
  | nil =>
    intro ch a w d ch' h
    cases hf : ch.find? (fun c => c.pid == p) with
    | none =>
      simp only [waitSpecific, hf] at h
      simp at h
    | some c =>
      simp only [waitSpecific, hf] at h ⊢
      by_cases hd : c.state = ProcState.PROC_DEAD
      · refine ⟨ch, ?_⟩
        rw [if_pos hd]
        exact reapChild_false_eq_fault ch c
      · rw [if_neg hd] at h
        simp at h
  | cons ev es ih =>
    intro ch a w d ch' h
    cases hf : ch.find? (fun c => c.pid == p) with
    | none =>
      simp only [waitSpecific, hf] at h
      simp at h
    | some c =>
      simp only [waitSpecific, hf] at h ⊢
      by_cases hd : c.state = ProcState.PROC_DEAD
      · refine ⟨ch, ?_⟩
        rw [if_pos hd]
        exact reapChild_false_eq_fault ch c
      · rw [if_neg hd] at h
        rcases ih (applyEvent ch ev) a w d ch' h with ⟨chf, hchf⟩
        refine ⟨chf, ?_⟩
        rw [if_neg hd]
        exact hchf

theorem waitAny_ok_fault (es : List WEvent) :
    ∀ (ch : List WProc) (a w d : Int) (ch' : List WProc),
      waitAny true es ch = WaitRes.ok a w d ch' →
      ∃ chf, waitAny false es ch = WaitRes.fault chf := by
  induction es with
  | nil =>
    intro ch a w d ch' h
    cases hfd : ch.find? (fun c => decide (c.state = ProcState.PROC_DEAD)) with
    | none =>
      simp only [waitAny, hfd] at h
      simp at h
    | some c =>
      refine ⟨ch, ?_⟩
      simp only [waitAny, hfd]
      exact reapChild_false_eq_fault ch c
  | cons ev es ih =>
    intro ch a w d ch' h
    cases hfd : ch.find? (fun c => decide (c.state = ProcState.PROC_DEAD)) with
    | none =>
      simp only [waitAny, hfd] at h ⊢
      exact ih (applyEvent ch ev) a w d ch' h
    | some c =>
      refine ⟨ch, ?_⟩
      simp only [waitAny, hfd]
      exact reapChild_false_eq_fault ch c

theorem do_waitpid_error_iff (ch : List WProc) (es : List WEvent)
    (pid : Int) (sv : Bool) (options co : Int) (ch' : List WProc) :
    do_waitpid ch es pid sv options = WaitRes.error co ch' ↔
      (ch' = ch ∧
        ((co = ENOTSUP ∧ (pid = 0 ∨ pid < -1 ∨ options ≠ 0)) ∨
         (co = ECHILD ∧ ¬(pid = 0 ∨ pid < -1 ∨ options ≠ 0) ∧
           ((0 < pid ∧ ∀ c ∈ ch, c.pid ≠ pid) ∨ (¬0 < pid ∧ ch = []))))) := by
  unfold do_waitpid
  by_cases hg : pid = 0 ∨ pid < -1 ∨ options ≠ 0
  · rw [if_pos hg]
    constructor
    · intro h
      injection h with h1 h2
      exact ⟨h2.symm, Or.inl ⟨h1.symm, hg⟩⟩
    · rintro ⟨h1, h2 | h3⟩
      · rw [h1, h2.1]
      · exact absurd hg h3.2.1
  · rw [if_neg hg]
    by_cases hp : 0 < pid
    · rw [if_pos hp]
      cases hf : ch.find? (fun c => c.pid == pid) with
      | none =>
        have hnone : ∀ c ∈ ch, c.pid ≠ pid := by
          intro c hc
          have := List.find?_eq_none.mp hf c hc
          simpa using this
        constructor
        · intro h
          injection h with h1 h2
          exact ⟨h2.symm, Or.inr ⟨h1.symm, hg, Or.inl ⟨hp, hnone⟩⟩⟩
        · rintro ⟨h1, h2 | h3⟩
          · exact absurd h2.2 hg
          · rw [h1, h3.1]
      | some c0 =>
        have hc0 : c0 ∈ ch := List.mem_of_find?_eq_some hf
        have hc0p : c0.pid = pid := by
          have := List.find?_some hf
          simpa using this
        constructor
        · intro h
          exact absurd h (waitSpecific_no_error pid sv es ch c0 hf co ch')
        · rintro ⟨h1, h2 | h3⟩
          · exact absurd h2.2 hg
          · rcases h3.2.2 with h4 | h4
            · exact absurd hc0p (h4.2 c0 hc0)
            · exact absurd hp h4.1
    · rw [if_neg hp]
      by_cases hc : ch = []
      · rw [if_pos hc]
        constructor
        · intro h
          injection h with h1 h2
          exact ⟨h2.symm, Or.inr ⟨h1.symm, hg, Or.inr ⟨hp, hc⟩⟩⟩
        · rintro ⟨h1, h2 | h3⟩
          · exact absurd h2.2 hg
          · rw [h1, h3.1]
      · rw [if_neg hc]
        constructor
        · intro h
          exact absurd h (waitAny_no_error sv es ch co ch')
        · rintro ⟨h1, h2 | h3⟩
          · exact absurd h2.2 hg
          · rcases h3.2.2 with h4 | h4
            · exact absurd h4.1 hp
            · exact absurd h4.2 hc

/-! ## Claim theorems: the wait/reap protocol -/

/-- C2: a call `do_waitpid(pid, status, 0)` with `pid` a positive pid of a
current (running) child and a valid status pointer sleeps through every
wakeup caused by other children's exits (the schedule prefix `pre`, none of
whose events concern `pid`), returns at the wakeup for that specific child's
exit, and then stores that child's exit status `s` through `status`, removes
the child from the caller's child set (`eraseP`), destroys it (the third
field of `ok` is the destroyed pid), and returns `pid`. -/
theorem do_waitpid_specific_reap (ch : List WProc) (pre post : List WEvent)
    (pid s : Int) (c0 : WProc)
    (hpid : 0 < pid)
    (hf : ch.find? (fun c => c.pid == pid) = some c0)
    (hrun : c0.state = ProcState.PROC_RUNNING)
    (hpre : ∀ e ∈ pre, e.pid ≠ pid) :
    do_waitpid ch (pre ++ WEvent.mk pid s :: post) pid true 0 =
      WaitRes.ok pid s pid
        ((applyEvents ch (pre ++ [WEvent.mk pid s])).eraseP
          fun x => x.pid == pid) := by
  unfold do_waitpid
  rw [if_neg (by omega), if_pos hpid]
  simp only [hf]
  exact waitSpecific_runs pid s pre post ch c0 hf hrun hpre

/-- Witness for C2: the caller has children 3 and 2, both running; child 3
exits first (status 9, wakeup ignored), then child 2 exits with status 7;
waiting on pid 2 returns (2, status 7), destroys 2, and leaves only the
dead child 3 in the child set. -/
theorem do_waitpid_specific_reap_witness :
    do_waitpid
        [WProc.mk 3 ProcState.PROC_RUNNING 0, WProc.mk 2 ProcState.PROC_RUNNING 0]
        [WEvent.mk 3 9, WEvent.mk 2 7] 2 true 0 =
      WaitRes.ok 2 7 2 [WProc.mk 3 ProcState.PROC_DEAD 9] :=
  (do_waitpid_specific_reap
      [WProc.mk 3 ProcState.PROC_RUNNING 0, WProc.mk 2 ProcState.PROC_RUNNING 0]
      [WEvent.mk 3 9] [] 2 7 (WProc.mk 2 ProcState.PROC_RUNNING 0)
      (by decide) (by decide) rfl (by decide)).trans (by decide)

/-- C9: `do_waitpid` returns -ECHILD — with the caller's child list
untouched, for every wakeup schedule, hence immediately and without
blocking — in exactly two cases: pid is positive and no current child has
that pid, or pid is -1 and the child set is empty (in both, with the
supported options value 0; non-zero options are pre-empted by the -ENOTSUP
rejection, claim C8).  In no other situation is -ECHILD returned.  The
source's positive-pid branch scans only `curproc->p_children`, never the
registry, so a matching pid elsewhere in the registry is irrelevant by
construction. -/
theorem do_waitpid_echild_iff (ch : List WProc) (es : List WEvent)
    (pid : Int) (sv : Bool) (options : Int) (ch' : List WProc) :
    do_waitpid ch es pid sv options = WaitRes.error ECHILD ch' ↔
      (ch' = ch ∧ options = 0 ∧
        ((0 < pid ∧ ∀ c ∈ ch, c.pid ≠ pid) ∨ (pid = -1 ∧ ch = []))) := by
  rw [do_waitpid_error_iff]
  constructor
  · rintro ⟨h1, h2 | h3⟩
    · exact absurd h2.1 (by decide)
    · refine ⟨h1, by omega, ?_⟩
      rcases h3.2.2 with h | h
      · exact Or.inl h
      · refine Or.inr ⟨?_, h.2⟩
        have hg := h3.2.1
        omega
  · rintro ⟨h1, hopt, h2 | h3⟩
    · exact ⟨h1, Or.inr ⟨rfl, by omega, Or.inl h2⟩⟩
    · exact ⟨h1, Or.inr ⟨rfl, by omega, Or.inr ⟨by omega, h3.2⟩⟩⟩

/-- Witness for C9: waiting on pid 5 while the only child is 3 gives
-ECHILD with the child list unchanged. -/
theorem do_waitpid_echild_iff_witness :
    do_waitpid [WProc.mk 3 ProcState.PROC_RUNNING 0] [] 5 true 0 =
      WaitRes.error ECHILD [WProc.mk 3 ProcState.PROC_RUNNING 0] :=
  (do_waitpid_echild_iff [WProc.mk 3 ProcState.PROC_RUNNING 0] [] 5 true 0
      [WProc.mk 3 ProcState.PROC_RUNNING 0]).mpr
    ⟨rfl, rfl, Or.inl ⟨by decide, by decide⟩⟩

/-- C10: the status pointer contract of `do_waitpid`.  With a NULL status
pointer the call never succeeds (first conjunct); the two error paths
(-ENOTSUP and -ECHILD) are reached with NULL exactly as with a valid
pointer, i.e. NULL is tolerated there (second conjunct); and every call that
succeeds with a valid pointer instead dereferences NULL — faults — when the
pointer is NULL, the write `*status = child->p_status` being executed
unconditionally on the success path before the child is unlinked and
destroyed (third conjunct: the fault result carries the child list with the
reaped child still in it). -/
theorem do_waitpid_null_status (ch : List WProc) (es : List WEvent)
    (pid options : Int) :
    (∀ a w d ch', do_waitpid ch es pid false options ≠ WaitRes.ok a w d ch') ∧
    (∀ co ch', do_waitpid ch es pid false options = WaitRes.error co ch' ↔
        do_waitpid ch es pid true options = WaitRes.error co ch') ∧
    (∀ a w d ch', do_waitpid ch es pid true options = WaitRes.ok a w d ch' →
        ∃ chf, do_waitpid ch es pid false options = WaitRes.fault chf) := by
  refine ⟨?_, ?_, ?_⟩
  · intro a w d ch'
    unfold do_waitpid
    by_cases hg : pid = 0 ∨ pid < -1 ∨ options ≠ 0
    · rw [if_pos hg]; simp
    · rw [if_neg hg]
      by_cases hp : 0 < pid
      · rw [if_pos hp]
        cases hf : ch.find? (fun c => c.pid == pid) with
        | none => simp [hf]
        | some c0 =>
          simp only [hf]
          exact waitSpecific_false_no_ok pid es ch a w d ch'
      · rw [if_neg hp]
        by_cases hc : ch = []
        · rw [if_pos hc]; simp
        · rw [if_neg hc]
          exact waitAny_false_no_ok es ch a w d ch'
  · intro co ch'
    rw [do_waitpid_error_iff, do_waitpid_error_iff]
  · intro a w d ch' h
    unfold do_waitpid at h ⊢
    by_cases hg : pid = 0 ∨ pid < -1 ∨ options ≠ 0
    · rw [if_pos hg] at h
      simp at h
    · simp only [if_neg hg] at h ⊢
      by_cases hp : 0 < pid
      · simp only [if_pos hp] at h ⊢
        cases hf : ch.find? (fun c => c.pid == pid) with
        | none =>
          simp only [hf] at h
          simp at h
        | some c0 =>
          simp only [hf] at h ⊢
          exact waitSpecific_ok_fault pid es ch a w d ch' h
      · simp only [if_neg hp] at h ⊢
        by_cases hc : ch = []
        · simp only [if_pos hc] at h
          simp at h
        · simp only [if_neg hc] at h ⊢
          exact waitAny_ok_fault es ch a w d ch' h

/-- Witness for C10: the caller has one dead child 3 (status 4); with a
valid pointer `do_waitpid(-1, ...)` succeeds, and the theorem's third
conjunct turns that success into a NULL-dereference fault when the status
pointer is NULL. -/
theorem do_waitpid_null_status_witness :
    ∃ chf, do_waitpid [WProc.mk 3 ProcState.PROC_DEAD 4] [] (-1) false 0 =
      WaitRes.fault chf :=
  (do_waitpid_null_status [WProc.mk 3 ProcState.PROC_DEAD 4] [] (-1) 0).2.2
    3 4 3 [] (by decide)

/-! ## Helper lemmas: the PID allocator -/

theorem emod_add_self (a n : Int) : (a + n) % n = a % n := by
  have h := Int.add_mul_emod_self_left a n 1
  rwa [mul_one] at h

theorem emod_absorb_right (a b n : Int) : (a + b % n) % n = (a + b) % n := by
  rw [Int.add_emod a (b % n) n, Int.emod_emod_of_dvd b dvd_rfl, ← Int.add_emod]

theorem wrapSucc_bounds (M pid : Int) (hM : 2 ≤ M) (h1 : 1 ≤ pid)
    (h2 : pid < M) : 1 ≤ wrapSucc M pid ∧ wrapSucc M pid < M := by
  unfold wrapSucc
  split <;> omega

theorem sIter_closed (M : Int) (hM : 2 ≤ M) :
    ∀ (i : Nat) (pid : Int), 1 ≤ pid → pid < M →
      sIter M i pid = 1 + (pid - 1 + i) % (M - 1) := by
  intro i
  induction i with
  | zero =>
    intro pid h1 h2
    have : (pid - 1) % (M - 1) = pid - 1 := Int.emod_eq_of_lt (by omega) (by omega)
    simp [sIter, this]
  | succ i ih =>
    intro pid h1 h2
    have hb := wrapSucc_bounds M pid hM h1 h2
    have hstep : sIter M (i + 1) pid = sIter M i (wrapSucc M pid) := rfl
    rw [hstep, ih (wrapSucc M pid) hb.1 hb.2]
    unfold wrapSucc
    by_cases hw : pid + 1 = M
    · rw [if_pos hw]
      have hpid : pid = M - 1 := by omega
      have hl : (1 - 1 + (i : Int)) % (M - 1) = (i : Int) % (M - 1) := by
        norm_num
      have hr : (pid - 1 + ((i : Nat) + 1 : Nat)) % (M - 1) =
          ((i : Int) + (M - 1)) % (M - 1) := by
        congr 1
        push_cast
        omega
      rw [hl, hr, emod_add_self]
    · rw [if_neg hw]
      congr 1
      push_cast
      ring_nf

theorem candChain_mem (M : Int) :
    ∀ (n : Nat) (pid c : Int),
      c ∈ candChain M n pid ↔ ∃ i : Nat, i < n ∧ sIter M i pid = c := by
  intro n
  induction n with
  | zero =>
    intro pid c
    simp [candChain]
  | succ n ih =>
    intro pid c
    simp only [candChain, List.mem_cons, ih]
    constructor
    · rintro (hc | ⟨i, hi, hs⟩)
      · exact ⟨0, by omega, hc.symm⟩
      · exact ⟨i + 1, by omega, hs⟩
    · rintro ⟨i, hi, hs⟩
      cases i with
      | zero => exact Or.inl hs.symm
      | succ i => exact Or.inr ⟨i, by omega, hs⟩

theorem candChain_range (M : Int) (hM : 2 ≤ M) (n : Nat) (pid : Int)
    (h1 : 1 ≤ pid) (h2 : pid < M) :
    ∀ c ∈ candChain M n pid, 1 ≤ c ∧ c < M := by
  intro c hc
  rcases (candChain_mem M n pid c).mp hc with ⟨i, _, hs⟩
  rw [sIter_closed M hM i pid h1 h2] at hs
  have hnn : 0 ≤ (pid - 1 + i) % (M - 1) :=
    Int.emod_nonneg _ (by omega)
  have hlt : (pid - 1 + i) % (M - 1) < M - 1 :=
    Int.emod_lt_of_pos _ (by omega)
  omega

theorem getidLoop_eq_scan (M : Int) (pids : List Int) (next : Int) :
    ∀ (n : Nat) (pid : Int) (fuel : Nat),
      1 ≤ n → n ≤ fuel →
      sIter M n pid = next →
      (∀ i : Nat, 0 < i → i < n → sIter M i pid ≠ next) →
      getidLoop M pids next pid fuel = scanFree pids (candChain M n pid) := by
  intro n
  induction n with
  | zero => intro pid fuel h1; omega
  | succ m ih =>
    intro pid fuel h1 hfuel hs hne
    obtain ⟨f, rfl⟩ : ∃ f, fuel = f + 1 := ⟨fuel - 1, by omega⟩
    show getidLoop M pids next pid (f + 1) =
      scanFree pids (pid :: candChain M m (wrapSucc M pid))
    simp only [getidLoop, scanFree]
    by_cases hmem : pid ∈ pids
    · rw [if_pos hmem, if_pos hmem]
      cases m with
      | zero =>
        have hw : wrapSucc M pid = next := hs
        rw [if_pos hw]
        rfl
      | succ k =>
        have hw : wrapSucc M pid ≠ next := by
          have := hne 1 (by omega) (by omega)
          exact this
        rw [if_neg hw]
        refine ih (wrapSucc M pid) f (by omega) (by omega) hs ?_
        intro i hi1 hi2
        exact hne (i + 1) (by omega) (by omega)
    · rw [if_neg hmem, if_neg hmem]

theorem scanFree_spec (pids : List Int) :
    ∀ cs : List Int,
      scanFree pids cs = -1 ∨
        (scanFree pids cs ∈ cs ∧ scanFree pids cs ∉ pids) := by
  intro cs
  induction cs with
  | nil => exact Or.inl rfl
  | cons c cs ih =>
    simp only [scanFree]
    by_cases hc : c ∈ pids
    · rw [if_pos hc]
      rcases ih with h | h
      · exact Or.inl h
      · exact Or.inr ⟨List.mem_cons_of_mem c h.1, h.2⟩
    · rw [if_neg hc]
      exact Or.inr ⟨List.mem_cons_self c cs, hc⟩

theorem scanFree_exhausted (pids : List Int) :
    ∀ cs : List Int, (∀ c ∈ cs, 1 ≤ c) →
      scanFree pids cs = -1 → ∀ c ∈ cs, c ∈ pids := by
  intro cs
  induction cs with
  | nil => intro _ _ c hc; cases hc
  | cons c cs ih =>
    intro hpos hscan d hd
    simp only [scanFree] at hscan
    by_cases hc : c ∈ pids
    · rw [if_pos hc] at hscan
      rcases List.mem_cons.mp hd with rfl | hmem
      · exact hc
      · exact ih (fun x hx => hpos x (List.mem_cons_of_mem c hx)) hscan d hmem
    · rw [if_neg hc] at hscan
      have := hpos c (List.mem_cons_self c cs)
      omega

theorem sIter_full_cycle (M next : Int) (hM : 2 ≤ M) (h1 : 1 ≤ next)
    (h2 : next < M) : sIter M (M - 1).toNat next = next := by
  rw [sIter_closed M hM _ next h1 h2]
  have hc : ((M - 1).toNat : Int) = M - 1 := Int.toNat_of_nonneg (by omega)
  rw [hc, emod_add_self]
  have : (next - 1) % (M - 1) = next - 1 := Int.emod_eq_of_lt (by omega) (by omega)
  omega

theorem sIter_no_early_cycle (M next : Int) (hM : 2 ≤ M) (h1 : 1 ≤ next)
    (h2 : next < M) :
    ∀ i : Nat, 0 < i → i < (M - 1).toNat → sIter M i next ≠ next := by
  intro i hi1 hi2 hcontra
  rw [sIter_closed M hM i next h1 h2] at hcontra
  have hiB : (i : Int) < M - 1 := by omega
  have hiA : 0 < (i : Int) := by omega
  have hval : (next - 1 + i) % (M - 1) = next - 1 + i - (M - 1) ∨
      (next - 1 + i) % (M - 1) = next - 1 + i := by
    by_cases hcase : next - 1 + i < M - 1
    · exact Or.inr (Int.emod_eq_of_lt (by omega) hcase)
    · refine Or.inl ?_
      have hshift : (next - 1 + i) % (M - 1) =
          (next - 1 + i - (M - 1)) % (M - 1) := by
        rw [← emod_add_self (next - 1 + i - (M - 1)) (M - 1)]
        congr 1
        ring
      rw [hshift]
      exact Int.emod_eq_of_lt (by omega) (by omega)
  rcases hval with h | h <;> omega

theorem candChain_covers (M next : Int) (hM : 2 ≤ M) (h1 : 1 ≤ next)
    (h2 : next < M) :
    ∀ q : Int, 1 ≤ q → q < M → q ∈ candChain M (M - 1).toNat next := by
  intro q hq1 hq2
  refine (candChain_mem M _ next q).mpr ⟨((q - next) % (M - 1)).toNat, ?_, ?_⟩
  · have hnn : 0 ≤ (q - next) % (M - 1) := Int.emod_nonneg _ (by omega)
    have hlt : (q - next) % (M - 1) < M - 1 := Int.emod_lt_of_pos _ (by omega)
    omega
  · rw [sIter_closed M hM _ next h1 h2]
    have hc : (((q - next) % (M - 1)).toNat : Int) = (q - next) % (M - 1) :=
      Int.toNat_of_nonneg (Int.emod_nonneg _ (by omega))
    rw [hc, emod_absorb_right]
    have heq : (next - 1 + (q - next)) % (M - 1) = (q - 1) % (M - 1) := by
      congr 1
      ring
    rw [heq, Int.emod_eq_of_lt (by omega) (by omega)]
    omega

/-- The cursor update of `_proc_getid` (source line 135): on success the
static cursor `next_pid` becomes the wraparound successor of the returned
pid; on exhaustion it is left unchanged. -/
def _proc_getid_next (M : Int) (pids : List Int) (next : Int) : Int :=
  if _proc_getid M pids next = -1 then next else wrapSucc M (_proc_getid M pids next)

theorem getid_eq_scan (M : Int) (pids : List Int) (next : Int)
    (hM : 2 ≤ M) (h1 : 1 ≤ next) (h2 : next < M) :
    _proc_getid M pids next =
      scanFree pids (candChain M (M - 1).toNat next) := by
  unfold _proc_getid
  exact getidLoop_eq_scan M pids next (M - 1).toNat next M.toNat
    (by omega) (by omega)
    (sIter_full_cycle M next hM h1 h2)
    (sIter_no_early_cycle M next hM h1 h2)

theorem getid_in_range (M : Int) (pids : List Int) (next : Int)
    (hM : 2 ≤ M) (h1 : 1 ≤ next) (h2 : next < M) :
    _proc_getid M pids next = -1 ∨
      (1 ≤ _proc_getid M pids next ∧ _proc_getid M pids next < M ∧
        _proc_getid M pids next ∉ pids) := by
  rw [getid_eq_scan M pids next hM h1 h2]
  rcases scanFree_spec pids (candChain M (M - 1).toNat next) with h | h
  · exact Or.inl h
  · have hb := candChain_range M hM (M - 1).toNat next h1 h2 _ h.1
    exact Or.inr ⟨hb.1, hb.2, h.2⟩

theorem getid_exhausted (M : Int) (pids : List Int) (next : Int)
    (hM : 2 ≤ M) (h1 : 1 ≤ next) (h2 : next < M) :
    _proc_getid M pids next = -1 →
      ∀ q : Int, 1 ≤ q → q < M → q ∈ pids := by
  rw [getid_eq_scan M pids next hM h1 h2]
  intro hneg q hq1 hq2
  refine scanFree_exhausted pids (candChain M (M - 1).toNat next) ?_ hneg q
    (candChain_covers M next hM h1 h2 q hq1 hq2)
  intro c hc
  exact (candChain_range M hM (M - 1).toNat next h1 h2 c hc).1

/-! ## Claim theorem: the PID allocator -/

/-- C3: the PID allocator, run with a cursor `next` in [1, PROC_MAX_COUNT)
(an invariant of the cursor: it starts at 1 and every update applies the
wraparound successor, see `proc_getid_cursor_invariant`) over the pids
`pids` of the registered processes, either returns a pid in
[1, PROC_MAX_COUNT) that no registered process holds, or returns the
exhaustion sentinel -1 — and -1 only when every pid in [1, PROC_MAX_COUNT)
is held by a registered process. -/
theorem proc_getid_spec (M : Int) (pids : List Int) (next : Int)
    (hM : 2 ≤ M) (h1 : 1 ≤ next) (h2 : next < M) :
    (_proc_getid M pids next = -1 ∨
      (1 ≤ _proc_getid M pids next ∧ _proc_getid M pids next < M ∧
        _proc_getid M pids next ∉ pids)) ∧
    (_proc_getid M pids next = -1 →
      ∀ q : Int, 1 ≤ q → q < M → q ∈ pids) :=
  ⟨getid_in_range M pids next hM h1 h2, getid_exhausted M pids next hM h1 h2⟩

/-- The cursor-range hypothesis of the allocator specification is an
invariant: the
cursor starts at 1 and every update by `_proc_getid_next` keeps it inside
[1, PROC_MAX_COUNT). -/
theorem proc_getid_cursor_invariant (M : Int) (pids : List Int) (next : Int)
    (hM : 2 ≤ M) (h1 : 1 ≤ next) (h2 : next < M) :
    1 ≤ _proc_getid_next M pids next ∧ _proc_getid_next M pids next < M := by
  unfold _proc_getid_next
  split
  · exact ⟨h1, h2⟩
  · rcases getid_in_range M pids next hM h1 h2 with h | h
    · simp_all
    · exact wrapSucc_bounds M _ hM h.1 h.2.1

/-- Witness for C3 with PROC_MAX_COUNT 4: a full registry {1,2,3} yields the
sentinel -1, as the second conjunct demands of this registry. -/
theorem proc_getid_spec_witness :
    (_proc_getid 4 [1, 2, 3] 2 = -1 ∨
      (1 ≤ _proc_getid 4 [1, 2, 3] 2 ∧ _proc_getid 4 [1, 2, 3] 2 < 4 ∧
        _proc_getid 4 [1, 2, 3] 2 ∉ [(1 : Int), 2, 3])) ∧
    (_proc_getid 4 [1, 2, 3] 2 = -1 →
      ∀ q : Int, 1 ≤ q → q < 4 → q ∈ [(1 : Int), 2, 3]) :=
  proc_getid_spec 4 [1, 2, 3] 2 (by decide) (by decide) (by decide)

end Weenix
